import Mathlib

/-!
Verification of the SWAT+ dataset-selector relationship-resolution engine.

The definitions below are a shallow embedding of the TypeScript sources:
the tokenizer and header finder (`swatFileParser` / `swatDatabaseBrowserProvider.ts`),
the database helper (`swatDatabaseHelper.ts`), the go-to-definition provider
(`swatDefinitionProvider.ts`) and the hover provider (`swatHoverProvider.ts`).
Strings are represented by Lean `String` (character lists under the hood);
the file system, the `better-sqlite3` engine and the editor word lookup are
modelled as explicit oracles passed to the embedded functions.
-/

namespace Swat

/-- Embeds the JavaScript whitespace test `/\s/.test(char)` (the WhiteSpace and
LineTerminator productions). -/
def isWs (c : Char) : Bool :=
  c == ' ' || c == '\t' || c == '\n' || c == '\x0b' || c == '\x0c' || c == '\r' ||
  c == '\u00A0' || c == '\u1680' || (0x2000 ≤ c.toNat && c.toNat ≤ 0x200A) ||
  c == '\u2028' || c == '\u2029' || c == '\u202F' || c == '\u205F' || c == '\u3000' ||
  c == '\uFEFF'

/-- A token produced by `parseLineTokens`: the source field `end` is called
`endPos` here because `end` is a Lean keyword.  `start`/`endPos` are half-open
character offsets into the source line. -/
structure Token where
  value : String
  start : Nat
  endPos : Nat
deriving Repr, DecidableEq, Inhabited

/-- State-machine core of `parseLineTokens` (swatDatabaseBrowserProvider.ts).
`i` is the current character index; the third argument collapses the source's
`inWhitespace` / `tokenStart` / `currentToken` triple: `none` means
`inWhitespace` (no token being built), `some (s, acc)` means a token started at
offset `s` with accumulated characters `acc`. -/
def parseTokensAux : List Char → Nat → Option (Nat × List Char) → List Token
  | [], _, none => []
  | [], i, some (s, acc) => [⟨⟨acc⟩, s, i⟩]
  | c :: cs, i, none =>
    if isWs c then parseTokensAux cs (i + 1) none
    else parseTokensAux cs (i + 1) (some (i, [c]))
  | c :: cs, i, some (s, acc) =>
    if isWs c then ⟨⟨acc⟩, s, i⟩ :: parseTokensAux cs (i + 1) none
    else parseTokensAux cs (i + 1) (some (s, acc ++ [c]))

/-- `parseLineTokens(line)`: split a whitespace-delimited line into tokens with
their exact character positions. -/
def parseLineTokens (line : String) : List Token :=
  parseTokensAux line.data 0 none

/-- Loop of `findTokenAtPosition`, carrying the current index `i`. -/
def findTokenAtPositionAux : List Token → Nat → Nat → Option (Token × Nat)
  | [], _, _ => none
  | t :: ts, i, pos =>
    if t.start ≤ pos ∧ pos < t.endPos then some (t, i)
    else findTokenAtPositionAux ts (i + 1) pos

/-- `findTokenAtPosition(tokens, position)`: the token whose half-open span
contains `position`, together with its index, or `undefined` (here `none`). -/
def findTokenAtPosition (tokens : List Token) (position : Nat) : Option (Token × Nat) :=
  findTokenAtPositionAux tokens 0 position

/-- Embeds JavaScript `String.prototype.trim`. -/
def trimLine (s : String) : String :=
  ⟨((s.data.dropWhile isWs).reverse.dropWhile isWs).reverse⟩

/-- Embeds JavaScript `s.startsWith(pre)`, character by character, so that it
evaluates inside the kernel. -/
def strStartsWith (s pre : String) : Bool :=
  pre.data.isPrefixOf s.data

/-- Embeds JavaScript `content.split('\n')`. -/
def splitLines (s : String) : List String :=
  (s.data.splitOn '\n').map (fun l => ⟨l⟩)

/-- Loop of `findHeaderLine`: `fuel` is the number of lines still allowed to be
inspected (`maxLinesToCheck` minus the lines already seen), `i` the current
line index. -/
def findHeaderAux : List String → Nat → Nat → Int
  | [], _, _ => -1
  | _ :: _, 0, _ => -1
  | l :: ls, fuel + 1, i =>
    let trimmed := trimLine l
    if trimmed.length > 0 && !(strStartsWith trimmed "#") then (i : Int)
    else findHeaderAux ls fuel (i + 1)

/-- `findHeaderLine(lines, maxLinesToCheck = 5)`: index of the first non-empty,
non-comment line among the first `maxLinesToCheck` lines, or `-1`. -/
def findHeaderLine (lines : List String) (maxLinesToCheck : Nat := 5) : Int :=
  findHeaderAux lines maxLinesToCheck 0

/-- The test `findHeaderLine` applies to a line: trimmed content non-empty and
not starting with the comment marker `#`. -/
def isHeaderCandidate (l : String) : Bool :=
  (trimLine l).length > 0 && !(strStartsWith (trimLine l) "#")

/-- A database row, as the field-name/value map `SELECT *` returns.  All values
are kept as their literal text representation. -/
abbrev SwatRecord := List (String × String)

/-- One row of `PRAGMA foreign_key_list(table)`.  The source fields `from`,
`table` and `to` are named `fkFrom`, `fkTable` and `fkTo` (`from` is a Lean
keyword); `fkTo = none` models a NULL `to` column. -/
structure ForeignKeyRow where
  fkFrom : String
  fkTable : String
  fkTo : Option String
deriving Repr, DecidableEq

/-- An open `better-sqlite3` database handle, modelled by the three query
shapes `swatDatabaseHelper.ts` issues.  Each call may fail (`Except.error`),
modelling a thrown query error. -/
structure Database where
  foreignKeyList : String → Except String (List ForeignKeyRow)
  selectWhereEq : String → String → String → Except String (Option SwatRecord)
  masterHasTable : String → Except String Bool

/-- The `better-sqlite3` module: opening a database may fail (missing or
unreadable file, `fileMustExist: true`). -/
structure SqliteEngine where
  openDb : String → Except String Database

/-- The identifier pattern of the specification, `^[A-Za-z][A-Za-z0-9_]*$`:
a letter followed by letters, digits or underscores. -/
def matchesIdentifierPattern (s : String) : Bool :=
  match s.data with
  | [] => false
  | c :: cs => c.isAlpha && cs.all (fun d => d.isAlpha || d.isDigit || d == '_')

/-- `isValidTableName`: the regex test `/^[a-zA-Z][a-zA-Z0-9_]*$/.test(tableName)`. -/
def isValidTableName (s : String) : Bool :=
  matchesIdentifierPattern s

/-- `isValidColumnName`: the regex test `/^[a-zA-Z][a-zA-Z0-9_]*$/.test(columnName)`. -/
def isValidColumnName (s : String) : Bool :=
  matchesIdentifierPattern s

/-- The static `tableToFileMap` of `getFileNameForTable`. -/
def tableToFileMap : List (String × String) :=
  [("hydrology_hyd", "hydrology.hyd"), ("topography_hyd", "topography.hyd"),
   ("field_fld", "field.fld"), ("soils_sol", "soils.sol"),
   ("landuse_lum", "landuse.lum"), ("soil_plant_ini", "soil_plant.ini"),
   ("wetland_wet", "wetland.wet"), ("snow_sno", "snow.sno"),
   ("hru_data_hru", "hru-data.hru"), ("hru_lte_hru", "hru-lte.hru"),
   ("plants_plt", "plants.plt"), ("d_table_dtl", "d_table.dtl"),
   ("soils_lte_sol", "soils_lte.sol"), ("aquifer_aqu", "aquifer.aqu"),
   ("initial_aqu", "initial.aqu")]

/-- The static `fileToTableMap` of `getTableNameForFile`. -/
def fileToTableMap : List (String × String) :=
  [("hru-data.hru", "hru_data_hru"), ("hru-lte.hru", "hru_lte_hru"),
   ("hydrology.hyd", "hydrology_hyd"), ("topography.hyd", "topography_hyd"),
   ("field.fld", "field_fld"), ("soils.sol", "soils_sol"),
   ("landuse.lum", "landuse_lum"), ("soil_plant.ini", "soil_plant_ini"),
   ("wetland.wet", "wetland_wet"), ("snow.sno", "snow_sno"),
   ("plants.plt", "plants_plt"), ("d_table.dtl", "d_table_dtl"),
   ("soils_lte.sol", "soils_lte_sol"), ("aquifer.aqu", "aquifer_aqu"),
   ("initial.aqu", "initial_aqu")]

/-- Embeds JavaScript `String.prototype.toLowerCase`. -/
def toLowerCase (s : String) : String :=
  ⟨s.data.map Char.toLower⟩

/-- `getFileNameForTable(tableName)`: map lookup on the lowercased name, with
the source's fallback `` `${tableName}.txt` `` (which keeps the input's case). -/
def getFileNameForTable (tableName : String) : String :=
  match tableToFileMap.lookup (toLowerCase tableName) with
  | some f => f
  | none => tableName ++ ".txt"

/-- `getTableNameForFile(fileName)`: map lookup on the lowercased name. -/
def getTableNameForFile (fileName : String) : Option String :=
  fileToTableMap.lookup (toLowerCase fileName)

/-- `getForeignKeyColumns(dbPath, tableName)`: the `from` columns of
`PRAGMA foreign_key_list(tableName)`; `[]` when the sqlite module is absent,
the name is invalid, or opening/querying fails. -/
def getForeignKeyColumns (sqlite3 : Option SqliteEngine) (dbPath tableName : String) :
    List String :=
  match sqlite3 with
  | none => []
  | some eng =>
    if isValidTableName tableName then
      match eng.openDb dbPath with
      | .error _ => []
      | .ok db =>
        match db.foreignKeyList tableName with
        | .error _ => []
        | .ok foreignKeys => foreignKeys.map (fun fk => fk.fkFrom)
    else []

/-- The object `resolveForeignKey` returns on success. -/
structure ResolvedForeignKey where
  targetTable : String
  targetColumn : String
  record : SwatRecord
  fileName : String
deriving Repr, DecidableEq

/-- `resolveForeignKey(dbPath, sourceTable, sourceColumn, sourceValue)`:
look up the declared foreign key for `sourceColumn`, default its target column
to `id` when the schema's `to` field is falsy (`fk.to || 'id'`), and fetch the
matching row of the target table. -/
def resolveForeignKey (sqlite3 : Option SqliteEngine)
    (dbPath sourceTable sourceColumn sourceValue : String) :
    Option ResolvedForeignKey :=
  match sqlite3 with
  | none => none
  | some eng =>
    if isValidTableName sourceTable && isValidColumnName sourceColumn then
      match eng.openDb dbPath with
      | .error _ => none
      | .ok db =>
        match db.foreignKeyList sourceTable with
        | .error _ => none
        | .ok foreignKeys =>
          match foreignKeys.find? (fun fkey => fkey.fkFrom == sourceColumn) with
          | none => none
          | some fk =>
            let targetTable := fk.fkTable
            let targetColumn :=
              match fk.fkTo with
              | none => "id"
              | some s => if s == "" then "id" else s
            if isValidTableName targetTable && isValidColumnName targetColumn then
              match db.selectWhereEq targetTable targetColumn sourceValue with
              | .error _ => none
              | .ok none => none
              | .ok (some record) =>
                some ⟨targetTable, targetColumn, record, getFileNameForTable targetTable⟩
            else none
    else none

/-- `findRecordByName(dbPath, tableName, recordName)`:
`SELECT * FROM tableName WHERE name = ? LIMIT 1`. -/
def findRecordByName (sqlite3 : Option SqliteEngine)
    (dbPath tableName recordName : String) : Option SwatRecord :=
  match sqlite3 with
  | none => none
  | some eng =>
    if isValidTableName tableName then
      match eng.openDb dbPath with
      | .error _ => none
      | .ok db =>
        match db.selectWhereEq tableName "name" recordName with
        | .error _ => none
        | .ok r => r
    else none

/-- `tableExists(dbPath, tableName)`: parameterized lookup in `sqlite_master`. -/
def tableExists (sqlite3 : Option SqliteEngine) (dbPath tableName : String) : Bool :=
  match sqlite3 with
  | none => false
  | some eng =>
    if isValidTableName tableName then
      match eng.openDb dbPath with
      | .error _ => false
      | .ok db =>
        match db.masterHasTable tableName with
        | .error _ => false
        | .ok b => b
    else false

/-- Embeds Node's `path.join(a, b)` for the relative file names used here. -/
def joinPath (a b : String) : String :=
  a ++ "/" ++ b

/-- A `vscode.Location`: target file plus a zero-based position in it. -/
structure Location where
  file : String
  line : Nat
  character : Nat
deriving Repr, DecidableEq

/-- The environment a resolution request runs in: the optional sqlite module,
the selected dataset root (`getSelectedDataset()`), the file system
(`fs.readFileSync`, with `fs.existsSync p` modelled as
`(fileSystem p).isSome`), the editor's `getWordRangeAtPosition`/`getText`
(`wordAt line char`), and the open document's text and base file name. -/
structure DefEnv where
  sqlite3 : Option SqliteEngine
  datasetPath : Option String
  fileSystem : String → Option String
  wordAt : Nat → Nat → Option String
  docText : String
  docFileName : String

/-- `getProjectDbPath(datasetPath)`: `datasetPath/project.db` when that file
exists, else `undefined`. -/
def getProjectDbPath (fileSystem : String → Option String) (datasetPath : String) :
    Option String :=
  let dbPath := joinPath datasetPath "project.db"
  if (fileSystem dbPath).isSome then some dbPath else none

/-- Loop of `findRecordLineInFile`: trim each line, skip empty and `#` lines,
and return the index of the first line whose first token equals `name`. -/
def findRecordLineAux : List String → Nat → String → Int
  | [], _, _ => -1
  | l :: ls, i, name =>
    let line := trimLine l
    if line.length = 0 || strStartsWith line "#" then findRecordLineAux ls (i + 1) name
    else
      match parseLineTokens line with
      | [] => findRecordLineAux ls (i + 1) name
      | tok :: _ =>
        if tok.value == name then (i : Int) else findRecordLineAux ls (i + 1) name

/-- `findRecordLineInFile(filePath, name)`: scan the file for the first data
line whose first token is `name`; `-1` when the file is unreadable or no line
matches (the source's catch-all returns `-1`). -/
def findRecordLineInFile (fileSystem : String → Option String)
    (filePath name : String) : Int :=
  match fileSystem filePath with
  | none => -1
  | some content => findRecordLineAux (splitLines content) 0 name

/-- The static `columnFileMap` of `findByNameInFiles` (swatDefinitionProvider.ts). -/
def columnFileMap : List (String × String) :=
  [("hydro", "hydrology.hyd"), ("topo", "topography.hyd"), ("field", "field.fld"),
   ("soil", "soils.sol"), ("lu_mgt", "landuse.lum"),
   ("soil_plant_init", "soil_plant.ini"), ("surf_stor", "wetland.wet"),
   ("snow", "snow.sno")]

/-- `findByNameInFiles(datasetPath, columnName, value)`: guess the target file
from the column name and scan it for a first-column match. -/
def findByNameInFiles (fileSystem : String → Option String)
    (datasetPath columnName value : String) : Option Location :=
  match columnFileMap.lookup columnName with
  | none => none
  | some targetFileName =>
    let targetFile := joinPath datasetPath targetFileName
    if (fileSystem targetFile).isSome then
      let lineNumber := findRecordLineInFile fileSystem targetFile value
      if lineNumber ≠ -1 then some ⟨targetFile, lineNumber.toNat, 0⟩ else none
    else none

/-- `parseSwatFileLine` of swatDefinitionProvider.ts: tokenize header and
cursor line, resolve the cursor to a column, gate on the database's declared
foreign keys, then resolve via the database or fall back to a file scan.
A cursor line index past the end of the document (`lines[position.line]`
being `undefined` in the source, making the tokenizer throw into the
catch-all) is the final `none` branch. -/
def parseSwatFileLine (env : DefEnv) (posLine posChar : Nat)
    (tableName dbPath datasetPath : String) : Option Location :=
  let lines := splitLines env.docText
  let headerLineIndex := findHeaderLine lines
  if headerLineIndex = -1 then none
  else if posLine < lines.length then
    let headerLine := lines.getD headerLineIndex.toNat ""
    let currentLine := lines.getD posLine ""
    let headerTokens := parseLineTokens headerLine
    let valueTokens := parseLineTokens currentLine
    match findTokenAtPosition valueTokens posChar with
    | none => none
    | some (cursorTok, columnIndex) =>
      if columnIndex ≥ headerTokens.length then none
      else
        let columnName := (headerTokens.getD columnIndex default).value
        let columnValue := cursorTok.value
        let foreignKeys := getForeignKeyColumns env.sqlite3 dbPath tableName
        if columnName ∈ foreignKeys then
          match resolveForeignKey env.sqlite3 dbPath tableName columnName columnValue with
          | none => findByNameInFiles env.fileSystem datasetPath columnName columnValue
          | some result =>
            let targetFile := joinPath datasetPath result.fileName
            if (env.fileSystem targetFile).isSome then
              let recName :=
                match result.record.lookup "name" with
                | some v => if v == "" then columnValue else v
                | none => columnValue
              let targetLineNumber := findRecordLineInFile env.fileSystem targetFile recName
              if targetLineNumber ≠ -1 then some ⟨targetFile, targetLineNumber.toNat, 0⟩
              else some ⟨targetFile, 0, 0⟩
            else none
        else none
  else none

/-- `provideDefinition` of swatDefinitionProvider.ts: guards (selected dataset,
`project.db` present, sqlite module available, recognized file name, a word
under the cursor) and then `parseSwatFileLine`. -/
def provideDefinition (env : DefEnv) (posLine posChar : Nat) : Option Location :=
  match env.datasetPath with
  | none => none
  | some datasetPath =>
    match getProjectDbPath env.fileSystem datasetPath with
    | none => none
    | some dbPath =>
      if env.sqlite3.isSome then
        match getTableNameForFile env.docFileName with
        | none => none
        | some tableName =>
          match env.wordAt posLine posChar with
          | none => none
          | some _ => parseSwatFileLine env posLine posChar tableName dbPath datasetPath
      else none

/-- The data `createHover` of swatHoverProvider.ts renders (the markdown
formatting itself is presentation, not resolution). -/
structure HoverInfo where
  columnName : String
  value : String
  targetTable : String
  record : SwatRecord
deriving Repr, DecidableEq

/-- The static `columnTableMap` of `guessTargetTable` (swatHoverProvider.ts). -/
def columnTableMap : List (String × String) :=
  [("hydro", "hydrology_hyd"), ("topo", "topography_hyd"), ("field", "field_fld"),
   ("soil", "soils_sol"), ("lu_mgt", "landuse_lum"),
   ("soil_plant_init", "soil_plant_ini"), ("surf_stor", "wetland_wet"),
   ("snow", "snow_sno"), ("plnt_typ", "plants_plt"), ("soil_text", "soils_lte_sol")]

/-- `guessTargetTable(columnName)` of swatHoverProvider.ts. -/
def guessTargetTable (columnName : String) : Option String :=
  columnTableMap.lookup columnName

/-- `parseSwatFileLine` of swatHoverProvider.ts: same pipeline as the
definition provider up to and including the foreign-key gate, then a hover is
built from the database record (or a `findRecordByName` lookup against the
guessed table). -/
def parseSwatHoverLine (env : DefEnv) (posLine posChar : Nat)
    (tableName dbPath : String) : Option HoverInfo :=
  let lines := splitLines env.docText
  let headerLineIndex := findHeaderLine lines
  if headerLineIndex = -1 then none
  else if posLine < lines.length then
    let headerTokens := parseLineTokens (lines.getD headerLineIndex.toNat "")
    let valueTokens := parseLineTokens (lines.getD posLine "")
    match findTokenAtPosition valueTokens posChar with
    | none => none
    | some (cursorTok, columnIndex) =>
      if columnIndex ≥ headerTokens.length then none
      else
        let columnName := (headerTokens.getD columnIndex default).value
        let columnValue := cursorTok.value
        let foreignKeys := getForeignKeyColumns env.sqlite3 dbPath tableName
        if columnName ∈ foreignKeys then
          match resolveForeignKey env.sqlite3 dbPath tableName columnName columnValue with
          | none =>
            match guessTargetTable columnName with
            | none => none
            | some targetTable =>
              match findRecordByName env.sqlite3 dbPath targetTable columnValue with
              | none => none
              | some record => some ⟨columnName, columnValue, targetTable, record⟩
          | some result => some ⟨columnName, columnValue, result.targetTable, result.record⟩
        else none
  else none

/-- `provideHover` of swatHoverProvider.ts: the same guards as
`provideDefinition`, then `parseSwatHoverLine`. -/
def provideHover (env : DefEnv) (posLine posChar : Nat) : Option HoverInfo :=
  match env.datasetPath with
  | none => none
  | some _ =>
    match env.datasetPath.bind (getProjectDbPath env.fileSystem) with
    | none => none
    | some dbPath =>
      if env.sqlite3.isSome then
        match getTableNameForFile env.docFileName with
        | none => none
        | some tableName =>
          match env.wordAt posLine posChar with
          | none => none
          | some _ => parseSwatHoverLine env posLine posChar tableName dbPath
      else none

/-- The column name a request resolves the cursor to: header token at the
cursor token's index.  This is exactly the intermediate value `columnName`
both providers compute before the foreign-key gate. -/
def resolvedColumnOfRequest (env : DefEnv) (posLine posChar : Nat) : Option String :=
  let lines := splitLines env.docText
  let headerLineIndex := findHeaderLine lines
  if headerLineIndex = -1 then none
  else if posLine < lines.length then
    let headerTokens := parseLineTokens (lines.getD headerLineIndex.toNat "")
    match findTokenAtPosition (parseLineTokens (lines.getD posLine "")) posChar with
    | none => none
    | some (_, columnIndex) =>
      if columnIndex ≥ headerTokens.length then none
      else some (headerTokens.getD columnIndex default).value
  else none

/-- The `project.db` path a request uses, when the guards pass. -/
def requestDbPath (env : DefEnv) : Option String :=
  env.datasetPath.bind (getProjectDbPath env.fileSystem)

/-- Specification-side predicate for `findRecordLineInFile` (from the spec:
skip lines that are empty or comments after trimming; otherwise match when the
first token's value equals `name`, case-sensitively). -/
def recordLineMatches (name l : String) : Bool :=
  let line := trimLine l
  if line.length = 0 || strStartsWith line "#" then false
  else
    match parseLineTokens line with
    | [] => false
    | tok :: _ => tok.value == name

/-- Specification-side first-match index: the index of the first element
satisfying `recordLineMatches name`. -/
def firstMatchIndex (name : String) : List String → Option Nat
  | [] => none
  | l :: ls =>
    if recordLineMatches name l then some 0
    else (firstMatchIndex name ls).map (fun j => j + 1)

/-- Render an optional zero-based match index (relative to start index `i`) as
the source's `Int` result, `-1` meaning no match. -/
def optIndexToInt (i : Nat) : Option Nat → Int
  | none => -1
  | some j => ((i + j : Nat) : Int)

lemma optIndexToInt_shift (i : Nat) (o : Option Nat) :
    optIndexToInt (i + 1) o = optIndexToInt i (o.map (fun j => j + 1)) := by
  cases o with
  | none => rfl
  | some j =>
    show ((i + 1 + j : Nat) : Int) = ((i + (j + 1) : Nat) : Int)
    omega

lemma findRecordLineAux_eq (name : String) :
    ∀ (ls : List String) (i : Nat),
      findRecordLineAux ls i name = optIndexToInt i (firstMatchIndex name ls) := by
  intro ls
  induction ls with
  | nil => intro i; rfl
  | cons l ls ih =>
    intro i
    simp only [findRecordLineAux, firstMatchIndex]
    by_cases h1 : (trimLine l).length = 0 || strStartsWith (trimLine l) "#"
    · have hm : recordLineMatches name l = false := by
        simp only [recordLineMatches]
        rw [if_pos h1]
      rw [if_pos h1, ih, hm]
      simp [optIndexToInt_shift]
    · rw [if_neg h1]
      cases hp : parseLineTokens (trimLine l) with
      | nil =>
        have hm : recordLineMatches name l = false := by
          simp only [recordLineMatches]
          rw [if_neg h1, hp]
        rw [ih, hm]
        simp [optIndexToInt_shift]
      | cons tok rest =>
        by_cases hv : tok.value == name
        · have hm : recordLineMatches name l = true := by
            simp only [recordLineMatches]
            rw [if_neg h1, hp]
            exact hv
          simp [hm, hv, optIndexToInt]
        · have hm : recordLineMatches name l = false := by
            simp only [recordLineMatches]
            rw [if_neg h1, hp]
            simpa using hv
          simp only [hm, Bool.false_eq_true, if_false, hv]
          rw [ih]
          exact optIndexToInt_shift i (firstMatchIndex name ls)

lemma isHeaderCandidate_false_iff (l : String) :
    isHeaderCandidate l = false ↔
      ((trimLine l).length = 0 ∨ strStartsWith (trimLine l) "#" = true) := by
  cases hs : strStartsWith (trimLine l) "#" with
  | false =>
    simp only [isHeaderCandidate, hs, Bool.not_false, Bool.and_true,
      decide_eq_false_iff_not, Bool.false_eq_true, or_false]
    omega
  | true => simp [isHeaderCandidate, hs]

lemma isHeaderCandidate_true_iff (l : String) :
    isHeaderCandidate l = true ↔
      ((trimLine l).length > 0 ∧ strStartsWith (trimLine l) "#" = false) := by
  cases hs : strStartsWith (trimLine l) "#" <;>
    simp [isHeaderCandidate, hs]

lemma findHeaderAux_cons_succ (l : String) (ls : List String) (fuel i : Nat) :
    findHeaderAux (l :: ls) (fuel + 1) i =
      if isHeaderCandidate l then (i : Int) else findHeaderAux ls fuel (i + 1) := by
  simp only [findHeaderAux, isHeaderCandidate]

lemma findHeaderAux_spec :
    ∀ (ls : List String) (fuel i0 : Nat),
      (∀ i : Nat, findHeaderAux ls fuel i0 = (i : Int) →
        i0 ≤ i ∧ i - i0 < min fuel ls.length ∧
        isHeaderCandidate (ls.getD (i - i0) "") = true ∧
        ∀ j, i0 ≤ j → j < i → isHeaderCandidate (ls.getD (j - i0) "") = false) ∧
      (findHeaderAux ls fuel i0 = -1 ↔
        ∀ k, k < min fuel ls.length → isHeaderCandidate (ls.getD k "") = false) := by
  intro ls
  induction ls with
  | nil =>
    intro fuel i0
    refine ⟨fun i h => ?_, by simp [findHeaderAux]⟩
    simp only [findHeaderAux] at h
    omega
  | cons l ls ih =>
    intro fuel i0
    cases fuel with
    | zero =>
      refine ⟨fun i h => ?_, by simp [findHeaderAux]⟩
      simp only [findHeaderAux] at h
      omega
    | succ fuel =>
      rw [findHeaderAux_cons_succ]
      by_cases hc : isHeaderCandidate l
      · rw [if_pos hc]
        constructor
        · intro i h
          have hi : i = i0 := by omega
          subst hi
          refine ⟨le_refl _, ?_, ?_, ?_⟩
          · simp only [Nat.sub_self, List.length_cons]
            omega
          · simpa using hc
          · intro j hj1 hj2; omega
        · constructor
          · intro h; omega
          · intro h
            exfalso
            have h0 := h 0 (by simp only [List.length_cons]; omega)
            simp only [List.getD_cons_zero] at h0
            simp [h0] at hc
      · rw [if_neg hc]
        have hcf : isHeaderCandidate l = false := by simpa using hc
        obtain ⟨ih1, ih2⟩ := ih fuel (i0 + 1)
        constructor
        · intro i h
          obtain ⟨h1, h2, h3, h4⟩ := ih1 i h
          refine ⟨by omega, ?_, ?_, ?_⟩
          · simp only [List.length_cons]
            omega
          · have hi : i - i0 = (i - (i0 + 1)) + 1 := by omega
            rw [hi, List.getD_cons_succ]
            exact h3
          · intro j hj1 hj2
            rcases Nat.eq_or_lt_of_le hj1 with rfl | hlt
            · simpa using hcf
            · have hj : j - i0 = (j - (i0 + 1)) + 1 := by omega
              rw [hj, List.getD_cons_succ]
              exact h4 j (by omega) hj2
        · rw [ih2]
          constructor
          · intro H k hk
            cases k with
            | zero => simpa using hcf
            | succ k =>
              rw [List.getD_cons_succ]
              refine H k ?_
              simp only [List.length_cons] at hk
              omega
          · intro H k hk
            have := H (k + 1) (by simp only [List.length_cons]; omega)
            simpa using this

/-- Claim C5: `findRecordLineInFile` returns `-1` on a missing/unreadable file,
and otherwise the index of the first line that survives the header/comment
skip and whose first token's value equals `name` under case-sensitive exact
comparison (`-1` when no line matches).  `firstMatchIndex`/`recordLineMatches`
are the specification-side rendering of that scan. -/
theorem findRecordLineInFile_spec (fileSystem : String → Option String)
    (filePath name : String) :
    findRecordLineInFile fileSystem filePath name =
      match fileSystem filePath with
      | none => -1
      | some content =>
        match firstMatchIndex name (splitLines content) with
        | none => -1
        | some i => (i : Int) := by
  cases hfs : fileSystem filePath with
  | none => simp [findRecordLineInFile, hfs]
  | some content =>
    simp only [findRecordLineInFile, hfs]
    rw [findRecordLineAux_eq]
    cases hfm : firstMatchIndex name (splitLines content) with
    | none => rfl
    | some j => simp [optIndexToInt]

/-- Claim C6: `findHeaderLine lines m` returns the smallest index
`i < min m lines.length` whose trimmed line is non-empty and does not start
with `#`, and `-1` exactly when no such index exists in that window; it never
returns an index whose trimmed line is empty or starts with `#`. -/
theorem findHeaderLine_spec (lines : List String) (m : Nat) :
    (∀ i : Nat, findHeaderLine lines m = (i : Int) →
      i < min m lines.length ∧
      (trimLine (lines.getD i "")).length > 0 ∧
      strStartsWith (trimLine (lines.getD i "")) "#" = false ∧
      ∀ j, j < i →
        ((trimLine (lines.getD j "")).length = 0 ∨
          strStartsWith (trimLine (lines.getD j "")) "#" = true)) ∧
    (findHeaderLine lines m = -1 ↔
      ∀ i, i < min m lines.length →
        ((trimLine (lines.getD i "")).length = 0 ∨
          strStartsWith (trimLine (lines.getD i "")) "#" = true)) := by
  have hunf : findHeaderLine lines m = findHeaderAux lines m 0 := rfl
  obtain ⟨h1, h2⟩ := findHeaderAux_spec lines m 0
  constructor
  · intro i h
    rw [hunf] at h
    obtain ⟨_, hlt, hcand, hprev⟩ := h1 i h
    simp only [Nat.sub_zero] at hlt hcand
    rw [isHeaderCandidate_true_iff] at hcand
    refine ⟨hlt, hcand.1, hcand.2, ?_⟩
    intro j hj
    have := hprev j (Nat.zero_le _) hj
    simp only [Nat.sub_zero] at this
    rwa [isHeaderCandidate_false_iff] at this
  · rw [hunf, h2]
    constructor
    · intro H i hi
      rw [← isHeaderCandidate_false_iff]
      exact H i hi
    · intro H k hk
      rw [isHeaderCandidate_false_iff]
      exact H k hk

/-- Witness for C6 at `lines = ["# c", "", "name hydro"]`, `m = 5`:
`findHeaderLine` returns 2, a non-empty non-comment line preceded only by
skipped lines. -/
theorem findHeaderLine_spec_witness :
    2 < min 5 (["# c", "", "name hydro"] : List String).length ∧
    (trimLine ((["# c", "", "name hydro"] : List String).getD 2 "")).length > 0 ∧
    strStartsWith (trimLine ((["# c", "", "name hydro"] : List String).getD 2 "")) "#" = false ∧
    ∀ j, j < 2 →
      ((trimLine ((["# c", "", "name hydro"] : List String).getD j "")).length = 0 ∨
        strStartsWith (trimLine ((["# c", "", "name hydro"] : List String).getD j "")) "#" = true) :=
  (findHeaderLine_spec ["# c", "", "name hydro"] 5).1 2 (by decide)

lemma findTokenAtPositionAux_some :
    ∀ (ts : List Token) (i0 p : Nat) (t : Token) (i : Nat),
      findTokenAtPositionAux ts i0 p = some (t, i) →
      i0 ≤ i ∧ i - i0 < ts.length ∧ ts.getD (i - i0) default = t ∧
      t.start ≤ p ∧ p < t.endPos := by
  intro ts
  induction ts with
  | nil => intro i0 p t i h; simp [findTokenAtPositionAux] at h
  | cons t0 ts ih =>
    intro i0 p t i h
    simp only [findTokenAtPositionAux] at h
    by_cases hc : t0.start ≤ p ∧ p < t0.endPos
    · rw [if_pos hc] at h
      simp only [Option.some.injEq, Prod.mk.injEq] at h
      obtain ⟨rfl, rfl⟩ := h
      exact ⟨le_refl _, by simp, by simp, hc.1, hc.2⟩
    · rw [if_neg hc] at h
      obtain ⟨h1, h2, h3, h4, h5⟩ := ih (i0 + 1) p t i h
      refine ⟨by omega, ?_, ?_, h4, h5⟩
      · simp only [List.length_cons]
        omega
      · have hi : i - i0 = (i - (i0 + 1)) + 1 := by omega
        rw [hi, List.getD_cons_succ]
        exact h3

lemma findTokenAtPositionAux_none_iff :
    ∀ (ts : List Token) (i0 p : Nat),
      findTokenAtPositionAux ts i0 p = none ↔
        ∀ t ∈ ts, ¬(t.start ≤ p ∧ p < t.endPos) := by
  intro ts
  induction ts with
  | nil => intro i0 p; simp [findTokenAtPositionAux]
  | cons t0 ts ih =>
    intro i0 p
    simp only [findTokenAtPositionAux]
    by_cases hc : t0.start ≤ p ∧ p < t0.endPos
    · rw [if_pos hc]
      simp only [List.mem_cons]
      constructor
      · intro h; cases h
      · intro h
        exact absurd hc (h t0 (Or.inl rfl))
    · rw [if_neg hc]
      rw [ih (i0 + 1) p]
      constructor
      · intro h t ht
        rcases List.mem_cons.mp ht with rfl | hmem
        · exact hc
        · exact h t hmem
      · intro h t ht
        exact h t (List.mem_cons_of_mem _ ht)

/-- Claim C3: on the token sequence of `parseLineTokens`, `findTokenAtPosition`
returns exactly the token (with its index) whose half-open span
`start ≤ p < endPos` contains the position, `none` when no token's span does
(in particular for positions in whitespace between tokens), and a position
equal to a token's `endPos` never yields that same token. -/
theorem findTokenAtPosition_spec (line : String) (p : Nat) :
    (∀ t i, findTokenAtPosition (parseLineTokens line) p = some (t, i) →
      i < (parseLineTokens line).length ∧
      (parseLineTokens line).getD i default = t ∧
      t.start ≤ p ∧ p < t.endPos) ∧
    (findTokenAtPosition (parseLineTokens line) p = none ↔
      ∀ t ∈ parseLineTokens line, ¬(t.start ≤ p ∧ p < t.endPos)) ∧
    (∀ t i, findTokenAtPosition (parseLineTokens line) t.endPos ≠ some (t, i)) := by
  refine ⟨?_, ?_, ?_⟩
  · intro t i h
    obtain ⟨h1, h2, h3, h4, h5⟩ := findTokenAtPositionAux_some (parseLineTokens line) 0 p t i h
    simp only [Nat.sub_zero] at h2 h3
    exact ⟨h2, h3, h4, h5⟩
  · exact findTokenAtPositionAux_none_iff (parseLineTokens line) 0 p
  · intro t i h
    obtain ⟨_, _, _, _, h5⟩ :=
      findTokenAtPositionAux_some (parseLineTokens line) 0 t.endPos t i h
    omega

/-- Witness for C3 on the line `"ab cd"` at position 1: the first token
(`"ab"`, span `[0, 2)`) is returned with index 0. -/
theorem findTokenAtPosition_spec_witness :
    0 < (parseLineTokens "ab cd").length ∧
    (parseLineTokens "ab cd").getD 0 default = ⟨"ab", 0, 2⟩ ∧
    (⟨"ab", 0, 2⟩ : Token).start ≤ 1 ∧ 1 < (⟨"ab", 0, 2⟩ : Token).endPos :=
  (findTokenAtPosition_spec "ab cd" 1).1 ⟨"ab", 0, 2⟩ 0 (by decide)

lemma take_takeWhile_length {α : Type} (p : α → Bool) (l : List α) :
    l.take (l.takeWhile p).length = l.takeWhile p := by
  induction l with
  | nil => rfl
  | cons a l ih =>
    by_cases h : p a
    · rw [List.takeWhile_cons_of_pos h, List.length_cons, List.take_succ_cons, ih]
    · rw [List.takeWhile_cons_of_neg h]
      rfl

lemma takeWhile_dropWhile_length {α : Type} (p : α → Bool) (l : List α) :
    (l.takeWhile p).length + (l.dropWhile p).length = l.length := by
  conv_rhs => rw [← List.takeWhile_append_dropWhile p l]
  rw [List.length_append]

lemma parseTokensAux_some_decomp :
    ∀ (cs : List Char) (i s : Nat) (acc : List Char),
      parseTokensAux cs i (some (s, acc)) =
        ⟨⟨acc ++ cs.takeWhile (fun c => !(isWs c))⟩, s,
          i + (cs.takeWhile (fun c => !(isWs c))).length⟩ ::
        parseTokensAux (cs.dropWhile (fun c => !(isWs c)))
          (i + (cs.takeWhile (fun c => !(isWs c))).length) none := by
  intro cs
  induction cs with
  | nil =>
    intro i s acc
    simp [parseTokensAux]
  | cons c cs ih =>
    intro i s acc
    by_cases hw : isWs c
    · have hp : ¬ ((fun c => !(isWs c)) c = true) := by simp [hw]
      rw [@List.takeWhile_cons_of_neg _ (fun c => !(isWs c)) c cs hp,
        @List.dropWhile_cons_of_neg _ (fun c => !(isWs c)) c cs hp]
      simp only [List.length_nil, List.append_nil, Nat.add_zero]
      simp [parseTokensAux, hw]
    · have hp : (fun c => !(isWs c)) c = true := by simp [hw]
      rw [@List.takeWhile_cons_of_pos _ (fun c => !(isWs c)) c cs hp,
        @List.dropWhile_cons_of_pos _ (fun c => !(isWs c)) c cs hp]
      have hstep : parseTokensAux (c :: cs) i (some (s, acc)) =
          parseTokensAux cs (i + 1) (some (s, acc ++ [c])) := by
        simp [parseTokensAux, hw]
      rw [hstep, ih (i + 1) s (acc ++ [c])]
      have harith : i + 1 + (cs.takeWhile (fun c => !(isWs c))).length =
          i + (c :: cs.takeWhile (fun c => !(isWs c))).length := by
        simp only [List.length_cons]
        omega
      rw [harith, List.append_assoc, List.singleton_append]

lemma parseTokensAux_none_spec :
    ∀ (n : Nat) (cs : List Char), cs.length ≤ n → ∀ (i : Nat),
      (∀ t ∈ parseTokensAux cs i none,
        i ≤ t.start ∧ t.start < t.endPos ∧ t.endPos ≤ i + cs.length ∧
        t.value.data = (cs.drop (t.start - i)).take (t.endPos - t.start) ∧
        ∀ c ∈ t.value.data, isWs c = false) ∧
      (parseTokensAux cs i none).Chain' (fun a b => a.endPos ≤ b.start) ∧
      ((parseTokensAux cs i none).map (fun t => t.value.data)).flatten =
        cs.filter (fun c => !(isWs c)) := by
  intro n
  induction n with
  | zero =>
    intro cs hlen i
    have hnil : cs = [] := List.length_eq_zero.mp (Nat.le_zero.mp hlen)
    subst hnil
    exact ⟨by intro t ht; simp [parseTokensAux] at ht, by simp [parseTokensAux], rfl⟩
  | succ n ihn =>
    intro cs hlen i
    cases cs with
    | nil =>
      exact ⟨by intro t ht; simp [parseTokensAux] at ht, by simp [parseTokensAux], rfl⟩
    | cons c cs =>
      have hlen' : cs.length ≤ n := by
        simp only [List.length_cons] at hlen
        omega
      by_cases hw : isWs c
      · have hstep : parseTokensAux (c :: cs) i none = parseTokensAux cs (i + 1) none := by
          simp [parseTokensAux, hw]
        obtain ⟨ihm, ihc, ihj⟩ := ihn cs hlen' (i + 1)
        refine ⟨?_, ?_, ?_⟩
        · intro t ht
          rw [hstep] at ht
          obtain ⟨a1, a2, a3, a4, a5⟩ := ihm t ht
          refine ⟨by omega, a2, by simp only [List.length_cons]; omega, ?_, a5⟩
          have hd : t.start - i = (t.start - (i + 1)) + 1 := by omega
          rw [hd, List.drop_succ_cons]
          exact a4
        · rw [hstep]; exact ihc
        · rw [hstep, ihj]
          rw [List.filter_cons_of_neg (by simp [hw])]
      · have hwc : isWs c = false := by simpa using hw
        have hstep : parseTokensAux (c :: cs) i none =
            parseTokensAux cs (i + 1) (some (i, [c])) := by
          simp [parseTokensAux, hw]
        rw [hstep, parseTokensAux_some_decomp]
        set tw := cs.takeWhile (fun c => !(isWs c)) with htw
        set dw := cs.dropWhile (fun c => !(isWs c)) with hdw
        have htwdw : tw ++ dw = cs := List.takeWhile_append_dropWhile _ _
        have hlens : tw.length + dw.length = cs.length := takeWhile_dropWhile_length _ _
        have htake : cs.take tw.length = tw := take_takeWhile_length _ _
        have hmem_tw : ∀ x ∈ tw, isWs x = false := by
          intro x hx
          rw [htw] at hx
          simpa using @List.mem_takeWhile_imp _ (fun c => !(isWs c)) cs x hx
        have hlendw : dw.length ≤ n := by omega
        obtain ⟨ihm, ihc, ihj⟩ := ihn dw hlendw (i + 1 + tw.length)
        refine ⟨?_, ?_, ?_⟩
        · intro t ht
          rcases List.mem_cons.mp ht with rfl | htl
          · refine ⟨le_refl _, ?_, ?_, ?_, ?_⟩
            · show i < i + 1 + tw.length
              omega
            · show i + 1 + tw.length ≤ i + (c :: cs).length
              simp only [List.length_cons]
              omega
            · show ([c] ++ tw) = ((c :: cs).drop (i - i)).take (i + 1 + tw.length - i)
              simp only [Nat.sub_self, List.drop_zero, List.singleton_append]
              have h2 : i + 1 + tw.length - i = tw.length + 1 := by omega
              rw [h2, List.take_succ_cons, htake]
            · intro x hx
              have hx2 : x ∈ c :: tw := hx
              rcases List.mem_cons.mp hx2 with rfl | hx3
              · exact hwc
              · exact hmem_tw x hx3
          · obtain ⟨a1, a2, a3, a4, a5⟩ := ihm t htl
            refine ⟨by omega, a2, ?_, ?_, a5⟩
            · simp only [List.length_cons]
              omega
            · have hs : t.start - i = tw.length + (t.start - (i + 1 + tw.length)) + 1 := by
                omega
              rw [hs, List.drop_succ_cons, ← htwdw, List.drop_append]
              exact a4
        · rw [List.chain'_cons']
          refine ⟨?_, ihc⟩
          intro y hy
          have hmem := List.mem_of_mem_head? hy
          exact (ihm y hmem).1
        · simp only [List.map_cons, List.flatten_cons, ihj]
          rw [List.filter_cons_of_pos (by simp [hw]), ← htwdw, List.filter_append]
          have htwf : tw.filter (fun c => !(isWs c)) = tw := by
            rw [htw]
            exact List.filter_eq_self.mpr
              (fun x hx => @List.mem_takeWhile_imp _ (fun c => !(isWs c)) cs x hx)
          rw [htwf]
          simp

lemma filter_intercalate_wsep (sep : Char) (hsep : isWs sep = true) :
    ∀ ls : List (List Char),
      (List.intercalate [sep] ls).filter (fun c => !(isWs c)) =
        ls.flatten.filter (fun c => !(isWs c)) := by
  intro ls
  induction ls with
  | nil => rfl
  | cons x t ih =>
    cases t with
    | nil => simp [List.intercalate]
    | cons y t2 =>
      have h1 : List.intercalate [sep] (x :: y :: t2) =
          x ++ ([sep] ++ List.intercalate [sep] (y :: t2)) := by
        simp [List.intercalate, List.intersperse_cons_cons]
      rw [h1, List.filter_append, List.filter_append]
      rw [show ([sep].filter (fun c => !(isWs c))) = [] from by simp [hsep]]
      rw [List.nil_append, ih]
      simp [List.filter_append]

/-- Claim C7: tokens of `parseLineTokens` reproduce the exact slice
`line[start:end]`, contain no whitespace, are non-overlapping and ordered by
`start` (each token ends no later than the next one starts), joining the token
values with any single whitespace character is whitespace-equivalent to the
line (equal after discarding whitespace), and the empty line yields no
tokens. -/
theorem parseLineTokens_spec (line : String) (sep : Char) (hsep : isWs sep = true) :
    (∀ t ∈ parseLineTokens line,
      t.value.data = (line.data.drop t.start).take (t.endPos - t.start) ∧
      t.start < t.endPos ∧ ∀ c ∈ t.value.data, isWs c = false) ∧
    (parseLineTokens line).Chain' (fun a b => a.endPos ≤ b.start) ∧
    (List.intercalate [sep] ((parseLineTokens line).map (fun t => t.value.data))).filter
        (fun c => !(isWs c)) =
      line.data.filter (fun c => !(isWs c)) ∧
    (line = "" → parseLineTokens line = []) := by
  obtain ⟨hm, hc, hj⟩ :=
    parseTokensAux_none_spec line.data.length line.data (le_refl _) 0
  refine ⟨?_, hc, ?_, ?_⟩
  · intro t ht
    obtain ⟨_, a2, _, a4, a5⟩ := hm t ht
    simp only [Nat.sub_zero] at a4
    exact ⟨a4, a2, a5⟩
  · rw [filter_intercalate_wsep sep hsep]
    rw [show (parseLineTokens line : List Token) =
        parseTokensAux line.data 0 none from rfl, hj]
    rw [List.filter_filter]
    simp
  · intro h
    subst h
    rfl

/-- Witness for C7 at `line = "ab cd"`, separator `\u0020`: the space-joined
token values are whitespace-equivalent to the line. -/
theorem parseLineTokens_spec_witness :
    (List.intercalate [' '] ((parseLineTokens "ab cd").map (fun t => t.value.data))).filter
        (fun c => !(isWs c)) =
      ("ab cd" : String).data.filter (fun c => !(isWs c)) :=
  (parseLineTokens_spec "ab cd" ' ' (by decide)).2.2.1

lemma toNat_ofNat_of_valid (n : Nat) (hv : n.isValidChar) : (Char.ofNat n).toNat = n := by
  simp [Char.ofNat, hv, Char.ofNatAux, Char.toNat, UInt32.toNat, BitVec.toNat_ofNatLt]

lemma charToLower_idem (c : Char) : c.toLower.toLower = c.toLower := by
  by_cases h : c.toNat ≥ 65 ∧ c.toNat ≤ 90
  · have h1 : Char.toLower c = Char.ofNat (c.toNat + 32) := by
      simp only [Char.toLower]
      rw [if_pos h]
    have h3 : (Char.ofNat (c.toNat + 32)).toNat = c.toNat + 32 :=
      toNat_ofNat_of_valid _ (Or.inl (by omega))
    rw [h1]
    simp only [Char.toLower]
    rw [if_neg (by rw [h3]; omega)]
  · have h1 : Char.toLower c = c := by
      simp only [Char.toLower]
      rw [if_neg h]
    rw [h1, h1]

lemma toLowerCase_idem (s : String) : toLowerCase (toLowerCase s) = toLowerCase s := by
  have hl : ∀ l : List Char, (l.map Char.toLower).map Char.toLower = l.map Char.toLower := by
    intro l
    induction l with
    | nil => rfl
    | cons a l ih => simp only [List.map_cons, ih, charToLower_idem]
  show String.mk ((s.data.map Char.toLower).map Char.toLower) = String.mk (s.data.map Char.toLower)
  rw [hl]

/-- A database whose every query fails, modelling thrown query errors. -/
def failingDatabase (err : String) : Database :=
  ⟨fun _ => .error err, fun _ _ _ => .error err, fun _ => .error err⟩

/-- An engine whose `openDb` always fails, modelling a missing database file. -/
def unavailableEngine : SqliteEngine :=
  ⟨fun _ => .error "file missing"⟩

/-- An engine that opens a database on which every query fails. -/
def erroringEngine : SqliteEngine :=
  ⟨fun _ => .ok (failingDatabase "query failed")⟩

/-- The record used by the sample database below. -/
def sampleRecord : SwatRecord :=
  [("id", "7"), ("name", "hyd1")]

/-- A well-behaved sample database: one declared foreign key
`hydro → hydrology_hyd` with a NULL target column, and one row whose `id` is
`7`. -/
def sampleDb : Database where
  foreignKeyList := fun _ => .ok [⟨"hydro", "hydrology_hyd", none⟩]
  selectWhereEq := fun tbl col v =>
    if tbl == "hydrology_hyd" && col == "id" && v == "7" then .ok (some sampleRecord)
    else .ok none
  masterHasTable := fun _ => .ok true

/-- An engine exposing `sampleDb` at every path. -/
def sampleEngine : SqliteEngine :=
  ⟨fun _ => .ok sampleDb⟩

/-- Claim C4: whenever a table/column name fails the identifier pattern
`^[A-Za-z][A-Za-z0-9_]*$`, `getForeignKeyColumns`, `resolveForeignKey` (in
either name position) and `tableExists` return their not-found value for
EVERY engine value, including `none`; the result does not depend on the
engine, which formalizes that the database layer is never reached and no
query string is built from the raw input. -/
theorem identifier_validation_spec (s : String)
    (hbad : matchesIdentifierPattern s = false) :
    ∀ (sqlite3 : Option SqliteEngine) (dbPath t c v : String),
      getForeignKeyColumns sqlite3 dbPath s = [] ∧
      resolveForeignKey sqlite3 dbPath s c v = none ∧
      resolveForeignKey sqlite3 dbPath t s v = none ∧
      tableExists sqlite3 dbPath s = false := by
  intro sqlite3 dbPath t c v
  have hbad' : isValidTableName s = false := hbad
  have hbad'' : isValidColumnName s = false := hbad
  cases sqlite3 with
  | none => exact ⟨rfl, rfl, rfl, rfl⟩
  | some eng =>
    refine ⟨?_, ?_, ?_, ?_⟩
    · simp [getForeignKeyColumns, hbad']
    · simp [resolveForeignKey, hbad']
    · simp [resolveForeignKey, hbad'']
    · simp [tableExists, hbad']

/-- Witness for C4 at `s = "a;DROP TABLE x"` against an engine that would
return data if it were consulted. -/
theorem identifier_validation_spec_witness :
    getForeignKeyColumns (some sampleEngine) "proj" "a;DROP TABLE x" = [] ∧
    resolveForeignKey (some sampleEngine) "proj" "a;DROP TABLE x" "hydro" "7" = none ∧
    resolveForeignKey (some sampleEngine) "proj" "hru_data_hru" "a;DROP TABLE x" "7" = none ∧
    tableExists (some sampleEngine) "proj" "a;DROP TABLE x" = false :=
  identifier_validation_spec "a;DROP TABLE x" (by decide)
    (some sampleEngine) "proj" "hru_data_hru" "hydro" "7"

/-- Claim C8: each Schema Introspector operation returns its not-found value
(empty list, `none`, `false`) whenever the sqlite module is absent, the
database file cannot be opened, or every query errors; no error escapes the
boundary (the embedded functions are total and every error path is mapped to
the default). -/
theorem dbHelper_degrades_to_not_found (dbPath t c v n err : String) :
    (getForeignKeyColumns none dbPath t = [] ∧
     resolveForeignKey none dbPath t c v = none ∧
     findRecordByName none dbPath t n = none ∧
     tableExists none dbPath t = false) ∧
    (∀ eng : SqliteEngine, eng.openDb dbPath = .error err →
      getForeignKeyColumns (some eng) dbPath t = [] ∧
      resolveForeignKey (some eng) dbPath t c v = none ∧
      findRecordByName (some eng) dbPath t n = none ∧
      tableExists (some eng) dbPath t = false) ∧
    (∀ eng : SqliteEngine, eng.openDb dbPath = .ok (failingDatabase err) →
      getForeignKeyColumns (some eng) dbPath t = [] ∧
      resolveForeignKey (some eng) dbPath t c v = none ∧
      findRecordByName (some eng) dbPath t n = none ∧
      tableExists (some eng) dbPath t = false) := by
  refine ⟨⟨rfl, rfl, rfl, rfl⟩, ?_, ?_⟩
  · intro eng h
    refine ⟨?_, ?_, ?_, ?_⟩
    · by_cases hv : isValidTableName t <;> simp [getForeignKeyColumns, hv, h]
    · by_cases hv : isValidTableName t && isValidColumnName c <;>
        simp [resolveForeignKey, hv, h]
    · by_cases hv : isValidTableName t <;> simp [findRecordByName, hv, h]
    · by_cases hv : isValidTableName t <;> simp [tableExists, hv, h]
  · intro eng h
    refine ⟨?_, ?_, ?_, ?_⟩
    · by_cases hv : isValidTableName t <;>
        simp [getForeignKeyColumns, hv, h, failingDatabase]
    · by_cases hv : isValidTableName t && isValidColumnName c <;>
        simp [resolveForeignKey, hv, h, failingDatabase]
    · by_cases hv : isValidTableName t <;>
        simp [findRecordByName, hv, h, failingDatabase]
    · by_cases hv : isValidTableName t <;>
        simp [tableExists, hv, h, failingDatabase]

/-- Witness for C8: the three degradation modes at concrete inputs. -/
theorem dbHelper_degrades_to_not_found_witness :
    (getForeignKeyColumns none "proj" "hru_data_hru" = [] ∧
     resolveForeignKey none "proj" "hru_data_hru" "hydro" "7" = none ∧
     findRecordByName none "proj" "hru_data_hru" "hyd1" = none ∧
     tableExists none "proj" "hru_data_hru" = false) ∧
    (getForeignKeyColumns (some unavailableEngine) "proj" "hru_data_hru" = [] ∧
     resolveForeignKey (some unavailableEngine) "proj" "hru_data_hru" "hydro" "7" = none ∧
     findRecordByName (some unavailableEngine) "proj" "hru_data_hru" "hyd1" = none ∧
     tableExists (some unavailableEngine) "proj" "hru_data_hru" = false) ∧
    (getForeignKeyColumns (some erroringEngine) "proj" "hru_data_hru" = [] ∧
     resolveForeignKey (some erroringEngine) "proj" "hru_data_hru" "hydro" "7" = none ∧
     findRecordByName (some erroringEngine) "proj" "hru_data_hru" "hyd1" = none ∧
     tableExists (some erroringEngine) "proj" "hru_data_hru" = false) :=
  ⟨(dbHelper_degrades_to_not_found "proj" "hru_data_hru" "hydro" "7" "hyd1" "e").1,
   (dbHelper_degrades_to_not_found "proj" "hru_data_hru" "hydro" "7" "hyd1"
      "file missing").2.1 unavailableEngine rfl,
   (dbHelper_degrades_to_not_found "proj" "hru_data_hru" "hydro" "7" "hyd1"
      "query failed").2.2 erroringEngine rfl⟩

/-- Claim C9: when the declared foreign key for the source column has a falsy
`to` field (NULL or the empty string), `resolveForeignKey` targets column
`id`: its result is exactly the lookup of the declared target table at column
`id` with the source value. -/
theorem resolveForeignKey_defaults_to_id
    (eng : SqliteEngine) (db : Database)
    (dbPath sourceTable sourceColumn sourceValue : String)
    (fks : List ForeignKeyRow) (fk : ForeignKeyRow)
    (hvt : isValidTableName sourceTable = true)
    (hvc : isValidColumnName sourceColumn = true)
    (hopen : eng.openDb dbPath = .ok db)
    (hfks : db.foreignKeyList sourceTable = .ok fks)
    (hfind : fks.find? (fun fkey => fkey.fkFrom == sourceColumn) = some fk)
    (hto : fk.fkTo = none ∨ fk.fkTo = some "")
    (hvtt : isValidTableName fk.fkTable = true) :
    resolveForeignKey (some eng) dbPath sourceTable sourceColumn sourceValue =
      match db.selectWhereEq fk.fkTable "id" sourceValue with
      | .ok (some record) =>
        some ⟨fk.fkTable, "id", record, getFileNameForTable fk.fkTable⟩
      | .ok none => none
      | .error _ => none := by
  have hid : isValidColumnName "id" = true := by decide
  rcases hto with hto1 | hto1 <;>
  · cases hsel : db.selectWhereEq fk.fkTable "id" sourceValue with
    | error e =>
      simp [resolveForeignKey, hvt, hvc, hopen, hfks, hfind, hto1, hvtt, hid, hsel]
    | ok r =>
      cases r with
      | none =>
        simp [resolveForeignKey, hvt, hvc, hopen, hfks, hfind, hto1, hvtt, hid, hsel]
      | some record =>
        simp [resolveForeignKey, hvt, hvc, hopen, hfks, hfind, hto1, hvtt, hid, hsel]

/-- Witness for C9: `sampleDb` declares `hydro → hydrology_hyd` with a NULL
`to`, so the row with `id = 7` is returned. -/
theorem resolveForeignKey_defaults_to_id_witness :
    resolveForeignKey (some sampleEngine) "proj" "hru_data_hru" "hydro" "7" =
      match sampleDb.selectWhereEq "hydrology_hyd" "id" "7" with
      | .ok (some record) =>
        some ⟨"hydrology_hyd", "id", record, getFileNameForTable "hydrology_hyd"⟩
      | .ok none => none
      | .error _ => none :=
  resolveForeignKey_defaults_to_id sampleEngine sampleDb "proj" "hru_data_hru" "hydro" "7"
    [⟨"hydro", "hydrology_hyd", none⟩] ⟨"hydro", "hydrology_hyd", none⟩
    (by decide) (by decide) rfl rfl (by decide) (Or.inl rfl) (by decide)

/-- Claim C10 counterexample: `getFileNameForTable` is not invariant under
lowercasing its input: for the unmapped table name `"Foo"` it returns
`"Foo.txt"`, while for `"foo"` it returns `"foo.txt"`. -/
theorem getFileNameForTable_case_counterexample :
    ¬ (getFileNameForTable "Foo" = getFileNameForTable (toLowerCase "Foo")) := by
  decide

/-- Claim C10 amended: `getTableNameForFile` is fully case-insensitive;
`getFileNameForTable` agrees on `t` and `toLowerCase t` whenever the lowercase
form is a key of the static map, and for unmapped names it returns
`t ++ ".txt"`, preserving the input's case. -/
theorem name_maps_case_insensitive_amended :
    (∀ f : String, getTableNameForFile f = getTableNameForFile (toLowerCase f)) ∧
    (∀ t : String, (tableToFileMap.lookup (toLowerCase t)).isSome = true →
      getFileNameForTable t = getFileNameForTable (toLowerCase t)) ∧
    (∀ t : String, tableToFileMap.lookup (toLowerCase t) = none →
      getFileNameForTable t = t ++ ".txt") := by
  refine ⟨?_, ?_, ?_⟩
  · intro f
    simp only [getTableNameForFile, toLowerCase_idem]
  · intro t h
    simp only [getFileNameForTable, toLowerCase_idem]
    cases hl : tableToFileMap.lookup (toLowerCase t) with
    | none => rw [hl] at h; simp at h
    | some f => rfl
  · intro t h
    simp only [getFileNameForTable, h]

/-- Witness for C10 amended, at a mixed-case file name, a mapped upper-case
table name and the unmapped name `"Foo"`. -/
theorem name_maps_case_insensitive_amended_witness :
    getTableNameForFile "HRU-Data.HRU" = getTableNameForFile (toLowerCase "HRU-Data.HRU") ∧
    getFileNameForTable "HYDROLOGY_HYD" = getFileNameForTable (toLowerCase "HYDROLOGY_HYD") ∧
    getFileNameForTable "Foo" = "Foo" ++ ".txt" :=
  ⟨name_maps_case_insensitive_amended.1 "HRU-Data.HRU",
   name_maps_case_insensitive_amended.2.1 "HYDROLOGY_HYD" (by decide),
   name_maps_case_insensitive_amended.2.2 "Foo" (by decide)⟩


lemma parseSwatFileLine_gate_none (env : DefEnv) (pL pC : Nat)
    (tableName dbPath datasetPath : String)
    (hcol : ∀ col, resolvedColumnOfRequest env pL pC = some col →
        col ∉ getForeignKeyColumns env.sqlite3 dbPath tableName) :
    parseSwatFileLine env pL pC tableName dbPath datasetPath = none := by
  simp only [parseSwatFileLine]
  split
  · rfl
  next h1 =>
    split
    next h2 =>
      split
      · rfl
      next cursorTok columnIndex h3 =>
        split
        · rfl
        next h4 =>
          split
          next h5 =>
            exfalso
            have hr : resolvedColumnOfRequest env pL pC =
                some ((parseLineTokens ((splitLines env.docText).getD
                  (findHeaderLine (splitLines env.docText)).toNat "")).getD columnIndex default).value := by
              simp only [resolvedColumnOfRequest]
              rw [if_neg h1, if_pos h2, h3]
              dsimp only
              rw [if_neg h4]
            exact absurd h5 (hcol _ hr)
          · rfl
    · rfl


lemma parseSwatHoverLine_gate_none (env : DefEnv) (pL pC : Nat)
    (tableName dbPath : String)
    (hcol : ∀ col, resolvedColumnOfRequest env pL pC = some col →
        col ∉ getForeignKeyColumns env.sqlite3 dbPath tableName) :
    parseSwatHoverLine env pL pC tableName dbPath = none := by
  simp only [parseSwatHoverLine]
  split
  · rfl
  next h1 =>
    split
    next h2 =>
      split
      · rfl
      next cursorTok columnIndex h3 =>
        split
        · rfl
        next h4 =>
          split
          next h5 =>
            exfalso
            have hr : resolvedColumnOfRequest env pL pC =
                some ((parseLineTokens ((splitLines env.docText).getD
                  (findHeaderLine (splitLines env.docText)).toNat "")).getD columnIndex default).value := by
              simp only [resolvedColumnOfRequest]
              rw [if_neg h1, if_pos h2, h3]
              dsimp only
              rw [if_neg h4]
            exact absurd h5 (hcol _ hr)
          · rfl
    · rfl

/-- Claim C2: with a database available, a resolved column name outside the
set returned by `getForeignKeyColumns` makes both the go-to-definition and the
hover resolution return not-found, even though the static guess maps contain
entries for such columns — the guarded fallbacks after the gate are never
consulted. -/
theorem database_gate_blocks_static_guess (env : DefEnv) (pL pC : Nat)
    (dbPath tableName : String)
    (hdb : env.sqlite3.isSome = true)
    (hpath : requestDbPath env = some dbPath)
    (htbl : getTableNameForFile env.docFileName = some tableName)
    (hcol : ∀ col, resolvedColumnOfRequest env pL pC = some col →
        col ∉ getForeignKeyColumns env.sqlite3 dbPath tableName) :
    provideDefinition env pL pC = none ∧ provideHover env pL pC = none := by
  cases hds : env.datasetPath with
  | none =>
    rw [requestDbPath, hds] at hpath
    simp at hpath
  | some ds =>
    have hget : getProjectDbPath env.fileSystem ds = some dbPath := by
      rw [requestDbPath, hds] at hpath
      simpa using hpath
    constructor
    · simp only [provideDefinition, hds]
      rw [hget]
      dsimp only
      rw [if_pos hdb, htbl]
      dsimp only
      cases hw : env.wordAt pL pC with
      | none => rfl
      | some w =>
        exact parseSwatFileLine_gate_none env pL pC tableName dbPath ds hcol
    · simp only [provideHover, hds]
      dsimp only [Option.bind]
      rw [hget]
      dsimp only
      rw [if_pos hdb, htbl]
      dsimp only
      cases hw : env.wordAt pL pC with
      | none => rfl
      | some w =>
        exact parseSwatHoverLine_gate_none env pL pC tableName dbPath hcol

/-- A database with no declared foreign keys at all. -/
def noFkDb : Database :=
  ⟨fun _ => .ok [], fun _ _ _ => .ok none, fun _ => .ok false⟩

/-- An engine exposing `noFkDb`. -/
def noFkEngine : SqliteEngine :=
  ⟨fun _ => .ok noFkDb⟩

/-- A request environment with a database available whose foreign-key set is
empty, over a recognized file whose cursor sits on the `hydro` column — a
column the static guess maps do map. -/
def gateEnv : DefEnv where
  sqlite3 := some noFkEngine
  datasetPath := some "ds"
  fileSystem := fun p => if p == "ds/project.db" then some "db" else none
  wordAt := fun _ _ => some "hydro_001"
  docText := "name hydro topo\nhru_001 hydro_001 topo_002"
  docFileName := "hru-data.hru"

/-- Witness for C2 at `gateEnv`: the cursor resolves to column `hydro`, which
is in `columnFileMap`, yet with an empty declared foreign-key set both
providers return not-found. -/
theorem database_gate_blocks_static_guess_witness :
    provideDefinition gateEnv 1 8 = none ∧ provideHover gateEnv 1 8 = none :=
  database_gate_blocks_static_guess gateEnv 1 8 "ds/project.db" "hru_data_hru"
    rfl (by decide) (by decide)
    (fun col hc => by
      have hfk : getForeignKeyColumns gateEnv.sqlite3 "ds/project.db" "hru_data_hru" = [] := by
        decide
      rw [hfk]
      simp)

/-- The environment of the repository's own fallback scenario (CHANGELOG,
implementation summary, sample dataset): no sqlite module and no `project.db`,
a recognized file with the cursor on the `hydro` column's value, and the
guessed file `hydrology.hyd` containing the referenced record. -/
def noDbEnv : DefEnv where
  sqlite3 := none
  datasetPath := some "ds"
  fileSystem := fun p =>
    if p == "ds/hru-data.hru" then some "name hydro topo\nhru_001 hydro_001 topo_002"
    else if p == "ds/hydrology.hyd" then some "name param1\nhydro_001 5.2"
    else none
  wordAt := fun _ _ => some "hydro_001"
  docText := "name hydro topo\nhru_001 hydro_001 topo_002"
  docFileName := "hru-data.hru"

/-- Claim C1 evidence: every premise of the fallback-activation claim holds in
`noDbEnv` — no database, the resolved column `hydro` is in the static guess
map, the guessed file's scan finds the record at line index 1, and
`findByNameInFiles` itself would produce that location — yet
`provideDefinition` returns not-found, because its availability guard
(`!dbPath || !isAvailable()`) exits before any fallback runs. -/
theorem provideDefinition_no_database_not_found :
    noDbEnv.sqlite3.isNone = true ∧
    getProjectDbPath noDbEnv.fileSystem "ds" = none ∧
    resolvedColumnOfRequest noDbEnv 1 8 = some "hydro" ∧
    columnFileMap.lookup "hydro" = some "hydrology.hyd" ∧
    findRecordLineInFile noDbEnv.fileSystem "ds/hydrology.hyd" "hydro_001" = 1 ∧
    findByNameInFiles noDbEnv.fileSystem "ds" "hydro" "hydro_001" =
      some ⟨"ds/hydrology.hyd", 1, 0⟩ ∧
    provideDefinition noDbEnv 1 8 = none := by
  decide

end Swat
